import Mathlib

/-!
Formal model of the gensyncio cooperative runtime (src/gensyncio: future.py,
sync.py, queue.py, task.py, loop.py, utils.py), as a shallow embedding.
Python heap objects become Lean structures, in-place mutation becomes
explicit state passing, and raised exceptions become Except or explicit
error results.  Generator bodies are modelled as finite scripts of the
observable actions a coroutine can take per advance (yield, create a task
then yield, raise), plus a return value delivered through StopIteration.
-/

deriving instance DecidableEq for Except

namespace GenSync

/-- Python values stored in Future result cells (None, booleans, ints). -/
inductive PVal
  | pnone
  | pbool (b : Bool)
  | pint (n : Int)
deriving DecidableEq

/-- Exception kinds raised by the modelled code.  stopIteration carries the
generator return value (none standing for Python None). -/
inductive PyErr
  | stopIteration (v : Option Int)
  | genCancelled
  | attributeError
  | valueError
  | runtimeError
deriving DecidableEq

/-- Test for the stopIteration constructor. -/
def isStopIt : PyErr → Bool
  | .stopIteration _ => true
  | _ => false

/-- Future (future.py): a result cell whose slot holds none while the
Undefined sentinel is still in place. -/
structure Future where
  result : Option PVal := none
deriving DecidableEq

/-- Future.done: the result is compared against the Undefined sentinel. -/
def futureDone (f : Future) : Bool := f.result.isSome

/-- Future.set_result: unconditionally stores the value; the source performs
no state check before overwriting the slot. -/
def futureSetResult (f : Future) (v : PVal) : Future := { f with result := some v }

/-- Event (sync.py): a latch plus a waiter deque of Futures. -/
structure Event where
  waiters : List Future := []
  value : Bool := false
deriving DecidableEq

/-- Event.set: a no-op when already set; otherwise flips the latch and
resolves (with True) every waiter not yet done.  Waiters are not drained. -/
def eventSet (e : Event) : Event :=
  if e.value then e
  else
    { e with
      value := true,
      waiters := e.waiters.map
        (fun f => if futureDone f then f else futureSetResult f (PVal.pbool true)) }

/-- Event.clear: resets the latch only. -/
def eventClear (e : Event) : Event := { e with value := false }

/-- Error kinds raised by Queue operations (ValueError with three distinct
messages in the source). -/
inductive QErr
  | queueFull
  | queueEmpty
  | taskDoneTooMany
deriving DecidableEq

/-- Queue (queue.py): bounded FIFO with getter and putter waiter deques, an
unfinished-work counter and the finished event. -/
structure Queue where
  maxsize : Int
  queue : List PVal
  getters : List Future
  putters : List Future
  unfinished_tasks : Int
  finished : Event
deriving DecidableEq

/-- Queue constructor: empty queue, zero unfinished tasks, and a finished
event that is set immediately. -/
def queueInit (maxsize : Int) : Queue :=
  { maxsize := maxsize, queue := [], getters := [], putters := [],
    unfinished_tasks := 0, finished := eventSet {} }

/-- Queue._wakeup_next: pop futures off the head of the deque until one not
yet done is found; that one is popped too and resolved (with None).  The
returned list is what remains of the deque. -/
def wakeupNext : List Future → List Future
  | [] => []
  | w :: rest => if futureDone w then wakeupNext rest else rest

/-- Queue.full: maxsize at most zero means unbounded. -/
def queueFullB (q : Queue) : Bool :=
  if q.maxsize ≤ 0 then false else (q.queue.length : Int) ≥ q.maxsize

/-- Queue.put_nowait: raises when full (before any mutation); otherwise
appends the item, bumps unfinished_tasks, clears finished, and wakes the
next live getter. -/
def putNowait (q : Queue) (item : PVal) : Except QErr Queue :=
  if queueFullB q then .error .queueFull
  else .ok
    { q with
      queue := q.queue ++ [item],
      unfinished_tasks := q.unfinished_tasks + 1,
      finished := eventClear q.finished,
      getters := wakeupNext q.getters }

/-- Queue.get_nowait: raises when empty; otherwise pops the head item and
wakes the next live putter. -/
def getNowait (q : Queue) : Except QErr (Queue × PVal) :=
  match q.queue with
  | [] => .error .queueEmpty
  | x :: xs => .ok ({ q with queue := xs, putters := wakeupNext q.putters }, x)

/-- Queue.task_done: raises on underflow without decrementing; otherwise
decrements and sets the finished event exactly when the counter reaches
zero. -/
def taskDone (q : Queue) : Except QErr Queue :=
  if q.unfinished_tasks ≤ 0 then .error .taskDoneTooMany
  else
    .ok
      { q with
        unfinished_tasks := q.unfinished_tasks - 1,
        finished := if q.unfinished_tasks - 1 = 0 then eventSet q.finished else q.finished }

/-- One queue operation in a client trace.  A blocking put that succeeds
performs its enqueue through put_nowait (queue.py line 99), so opPut also
covers the accounting of Queue.put; likewise opGet covers Queue.get. -/
inductive QOp
  | opPut (v : PVal)
  | opGet
  | opTaskDone
deriving DecidableEq

/-- Apply one operation; a raising operation leaves the state unchanged
because the source raises before mutating.  The two flags count a
successful put and a successful task_done. -/
def applyQOp (q : Queue) : QOp → Queue × Nat × Nat
  | .opPut v =>
    match putNowait q v with
    | .ok q2 => (q2, 1, 0)
    | .error _ => (q, 0, 0)
  | .opGet =>
    match getNowait q with
    | .ok p => (p.1, 0, 0)
    | .error _ => (q, 0, 0)
  | .opTaskDone =>
    match taskDone q with
    | .ok q2 => (q2, 0, 1)
    | .error _ => (q, 0, 0)

/-- Run a trace of queue operations, counting the successful puts and the
successful task_done calls. -/
def runQ : Queue → List QOp → Queue × Nat × Nat
  | q, [] => (q, 0, 0)
  | q, op :: ops =>
    let r := applyQOp q op
    let s := runQ r.1 ops
    (s.1, r.2.1 + s.2.1, r.2.2 + s.2.2)

/-- Task status strings from task.py. -/
inductive Status
  | pending
  | finished
  | cancelled
deriving DecidableEq

/-- One scripted step of a generator body: plain yield, create_task followed
by a yield, or raise.  catchC marks a yield wrapped in a try/except
GenCancelledError handler that swallows the cancellation and continues. -/
inductive Act
  | pause (catchC : Bool)
  | admitTask (k : Nat) (catchC : Bool)
  | raiseE (e : PyErr)
deriving DecidableEq

/-- A generator: remaining script, return value, closed flag, and whether
the current suspension point catches GenCancelledError.  pendingCatch is
false before the first advance, because throwing into a not-yet-started
generator is never caught by the body. -/
structure Gen where
  acts : List Act
  retVal : Option Int
  closed : Bool := false
  pendingCatch : Bool := false
deriving DecidableEq

/-- Task (task.py): id (uuid4 in the source, here a Nat), the wrapped
generator, a status, the result slot (initially None, indistinguishable
from a stored None), and done-callback labels. -/
structure Task where
  id : Nat
  gen : Gen
  status : Status := .pending
  result : Option Int := none
  callbacks : List Nat := []
deriving DecidableEq

/-- Task.done (task.py lines 36-39): cancelled counts as done, otherwise
done means finished. -/
def taskIsDone (t : Task) : Bool :=
  if t.status = .cancelled then true else t.status = .finished

/-- Observable scheduler events: next(task) called by the tick sweep, a done
callback fired, a task admitted via create_task/add_task. -/
inductive Ev
  | advancedT (tid : Nat)
  | cbFired (tid : Nat) (cb : Nat)
  | admittedT (tid : Nat)
deriving DecidableEq

/-- Loop state (loop.py).  In the source, Task objects are shared by
reference between running, to_add and to_delete, so the model keeps a
single store addressed by id and the three lists hold ids.  nextId supplies
fresh ids; log records the observable events of the run. -/
structure LoopSt where
  store : List Task
  running : List Nat
  to_add : List Nat
  to_delete : List Nat
  nextId : Nat
  log : List Ev
deriving DecidableEq

/-- A freshly constructed Loop. -/
def loop0 : LoopSt :=
  { store := [], running := [], to_add := [], to_delete := [], nextId := 0, log := [] }

/-- Look a task up by id in the store. -/
def getTask (st : LoopSt) (tid : Nat) : Option Task :=
  st.store.find? (fun t => t.id == tid)

/-- Mutate the task object with the given id in place. -/
def updTask (st : LoopSt) (tid : Nat) (f : Task → Task) : LoopSt :=
  { st with store := st.store.map (fun t => if t.id == tid then f t else t) }

/-- Loop.create_task on a generator: wrap it in a fresh pending Task, bind
the loop, and stage the task on to_add (add_task).  The environment env
supplies the generator script that the k-th create_task call admits. -/
def createTaskM (env : Nat → Gen) (st : LoopSt) (k : Nat) : LoopSt × Nat :=
  let tid := st.nextId
  let t : Task := { id := tid, gen := env k }
  ({ st with
     store := st.store ++ [t],
     to_add := st.to_add ++ [tid],
     nextId := tid + 1,
     log := st.log ++ [Ev.admittedT tid] }, tid)

/-- Result of advancing or throwing into a generator. -/
inductive StepRes
  | yielded
  | raised (e : PyErr)
deriving DecidableEq

/-- next(task): Task.__next__ simply advances the generator, with no status
check (task.py lines 22-23).  A closed generator raises StopIteration with
value None; reaching the end of the script closes the generator and raises
StopIteration carrying the return value; a yield suspends; a create_task
followed by a yield stages a new task first; a raise closes the generator
and propagates the error (a StopIteration raised by the body surfaces as
RuntimeError, per PEP 479). -/
def genNext (env : Nat → Gen) (st : LoopSt) (tid : Nat) : LoopSt × StepRes :=
  match getTask st tid with
  | none => (st, .raised .attributeError)
  | some t =>
    if t.gen.closed then (st, .raised (.stopIteration none))
    else
      match t.gen.acts with
      | [] =>
        (updTask st tid (fun u => { u with gen := { u.gen with closed := true } }),
         .raised (.stopIteration t.gen.retVal))
      | .pause c :: rest =>
        (updTask st tid
           (fun u => { u with gen := { u.gen with acts := rest, pendingCatch := c } }),
         .yielded)
      | .admitTask k c :: rest =>
        let st1 := updTask st tid
          (fun u => { u with gen := { u.gen with acts := rest, pendingCatch := c } })
        ((createTaskM env st1 k).1, .yielded)
      | .raiseE e :: _ =>
        (updTask st tid (fun u => { u with gen := { u.gen with closed := true } }),
         .raised (match e with | .stopIteration _ => .runtimeError | _ => e))

/-- gen.throw(exc): a closed generator re-raises exc; a suspension point
wrapped in a handler for GenCancelledError swallows that error and
continues executing, behaving like next; otherwise the generator closes and
exc propagates to the thrower. -/
def genThrow (env : Nat → Gen) (st : LoopSt) (tid : Nat) (e : PyErr) : LoopSt × StepRes :=
  match getTask st tid with
  | none => (st, .raised e)
  | some t =>
    if t.gen.closed then (st, .raised e)
    else if t.gen.pendingCatch && (e == .genCancelled) then genNext env st tid
    else (updTask st tid (fun u => { u with gen := { u.gen with closed := true } }), .raised e)

/-- Task.cacnel, in the source spelling (task.py lines 41-43): set status to
cancelled, then throw GenCancelledError into the generator; whatever the
throw raises propagates to the caller of cacnel. -/
def cacnelM (env : Nat → Gen) (st : LoopSt) (tid : Nat) : Except (PyErr × LoopSt) LoopSt :=
  let st1 := updTask st tid (fun t => { t with status := .cancelled })
  match genThrow env st1 tid .genCancelled with
  | (st2, .yielded) => .ok st2
  | (st2, .raised e) => .error (e, st2)

/-- list.remove on a list of task ids: drop the first occurrence.  An absent
value raises ValueError in the source, which the only caller catches and
ignores, so the model returns the list unchanged in that case. -/
def removeFirstNat (tid : Nat) : List Nat → List Nat
  | [] => []
  | x :: xs => if x = tid then xs else x :: removeFirstNat tid xs

/-- The tick sweep (loop.py lines 25-31): advance each listed task once, in
order, with no status check.  StopIteration stores the result, marks done
(set_done preserves a cancelled status) and stages the task on to_delete;
any other error aborts the sweep and propagates, keeping the mutations made
so far. -/
def sweepTasks (env : Nat → Gen) : LoopSt → List Nat → Except (PyErr × LoopSt) LoopSt
  | st, [] => .ok st
  | st, tid :: rest =>
    let st0 : LoopSt := { st with log := st.log ++ [Ev.advancedT tid] }
    match genNext env st0 tid with
    | (st1, .yielded) => sweepTasks env st1 rest
    | (st1, .raised (.stopIteration v)) =>
      let st2 := updTask st1 tid (fun u =>
        { u with result := v,
                 status := if u.status = .cancelled then u.status else .finished })
      sweepTasks env { st2 with to_delete := st2.to_delete ++ [tid] } rest
    | (st1, .raised e) => .error (e, st1)

/-- The tick reap (loop.py lines 33-39): for each staged task fire its
callbacks in registration order, then remove it from running (a task no
longer present is ignored). -/
def reapTasks : LoopSt → List Nat → LoopSt
  | st, [] => st
  | st, tid :: rest =>
    let cbs := match getTask st tid with
      | some t => t.callbacks
      | none => []
    let st1 : LoopSt := { st with log := st.log ++ cbs.map (fun c => Ev.cbFired tid c) }
    reapTasks { st1 with running := removeFirstNat tid st1.running } rest

/-- Loop.tick (loop.py lines 19-42): drain to_add into running, sweep,
reap, then return a copy of to_delete and clear it. -/
def tickM (env : Nat → Gen) (st : LoopSt) : Except (PyErr × LoopSt) (LoopSt × List Nat) :=
  let st1 : LoopSt := { st with running := st.running ++ st.to_add, to_add := [] }
  match sweepTasks env st1 st1.running with
  | .error p => .error p
  | .ok st2 =>
    let st3 := reapTasks st2 st2.to_delete
    .ok ({ st3 with to_delete := [] }, st3.to_delete)

/-- Loop.cancel_all (loop.py lines 64-71): iterates running calling
task.cancel().  Task defines only the misspelled cacnel, so on a non-empty
running list the very first iteration raises AttributeError, which the
except GenCancelledError clause does not catch; no status changes and no
extra tick happen.  With an empty running list the loop body never runs and
one tick is performed. -/
def cancelAllM (env : Nat → Gen) (st : LoopSt) : Except (PyErr × LoopSt) LoopSt :=
  match st.running with
  | [] =>
    match tickM env st with
    | .ok p => .ok p.1
    | .error p => .error p
  | _ :: _ => .error (.attributeError, st)

/-- Ids of the tasks the sweep advanced, in order. -/
def advancedOf (l : List Ev) : List Nat :=
  l.filterMap (fun ev => match ev with | .advancedT i => some i | _ => none)

/-- Ids of the tasks admitted, in order. -/
def admittedOf (l : List Ev) : List Nat :=
  l.filterMap (fun ev => match ev with | .admittedT i => some i | _ => none)

/-- Fired callbacks as (task id, callback label) pairs, in order. -/
def cbFiredOf (l : List Ev) : List (Nat × Nat) :=
  l.filterMap (fun ev => match ev with | .cbFired i c => some (i, c) | _ => none)

/-- Error projection of an Except value. -/
def errInfo {ε α : Type} : Except ε α → Option ε
  | .error e => some e
  | .ok _ => none

/-- Success projection of an Except value. -/
def okInfo {ε α : Type} : Except ε α → Option α
  | .error _ => none
  | .ok a => some a

/-- Loop state after a tick, whether the tick returned or raised. -/
def stepOk (x : Except (PyErr × LoopSt) (LoopSt × List Nat)) : LoopSt :=
  match x with
  | .ok p => p.1
  | .error p => p.2

/-- A task as gather observes it: its id, the tick index at which the loop
completes it, and its final result. -/
structure GTask where
  id : Nat
  doneAt : Nat
  result : Option Int
deriving DecidableEq

/-- task.done() as gather reads it at tick t. -/
def gTaskDone (tk : GTask) (t : Nat) : Bool := tk.doneAt ≤ t

/-- Errors raised by the gather loop. -/
inductive GErr
  | timeoutOn (ids : List Nat)
  | outOfFuel
deriving DecidableEq

/-- The results dict of gather, keyed by task id; an absent key reads as
none. -/
abbrev GDict := Nat → Option (Option Int)

/-- Dict assignment. -/
def dUpd (d : GDict) (k : Nat) (v : Option Int) : GDict :=
  fun n => if n = k then some v else d n

/-- tasks.remove(task) with Task equality by id: drop the first task whose
id matches. -/
def removeById (tid : Nat) : List GTask → List GTask
  | [] => []
  | x :: xs => if x.id = tid then xs else x :: removeById tid xs

/-- One pass of the for-loop inside gather (utils.py lines 28-31).  CPython
iterates with a hidden index that advances on every step even when the body
removes the current element, so a removal makes the next fetch skip one
element.  steps bounds the iteration count; l.length always suffices, since
the index grows by one per step and the list never grows. -/
def sweepGo (t : Nat) : Nat → List GTask → Nat → GDict → List GTask × GDict
  | 0, l, _, acc => (l, acc)
  | steps + 1, l, i, acc =>
    if h : i < l.length then
      if gTaskDone (l.get ⟨i, h⟩) t then
        sweepGo t steps (removeById (l.get ⟨i, h⟩).id l) (i + 1)
          (dUpd acc (l.get ⟨i, h⟩).id (l.get ⟨i, h⟩).result)
      else
        sweepGo t steps l (i + 1) acc
    else (l, acc)

/-- The full for-loop pass from index 0. -/
def sweepPass (t : Nat) (l : List GTask) (acc : GDict) : List GTask × GDict :=
  sweepGo t l.length l 0 acc

/-- The timeout guard of gather: Python tests the timeout value itself for
truthiness, so both None and 0 disable the deadline; otherwise the elapsed
time (counted here in ticks) is compared against it. -/
def timeoutHit (timeout : Option Nat) (t : Nat) : Bool :=
  match timeout with
  | none => false
  | some v => (v != 0) && (v < t)

/-- The while-loop of gather (utils.py lines 27-34): while tasks remain,
run one collection pass, then test the deadline, raising a TimeoutError
that names ordered_ids, the ids of ALL admitted tasks, then yield for one
tick.  fuel bounds the number of loop iterations. -/
def gatherLoop (origIds : List Nat) (timeout : Option Nat) :
    Nat → Nat → List GTask → GDict → Except GErr GDict
  | 0, _, _, _ => .error .outOfFuel
  | fuel + 1, t, tasks, acc =>
    match tasks with
    | [] => .ok acc
    | _ :: _ =>
      let p := sweepPass t tasks acc
      if timeoutHit timeout t then .error (.timeoutOn origIds)
      else gatherLoop origIds timeout fuel (t + 1) p.1 p.2

/-- gather (utils.py lines 19-36): admit the tasks, record ordered_ids, run
the collection loop, then build the result tuple by looking each ordered id
up in the results dict. -/
def gatherRun (tasks : List GTask) (timeout : Option Nat) (fuel : Nat) :
    Except GErr (List (Option (Option Int))) :=
  match gatherLoop (tasks.map (fun tk => tk.id)) timeout fuel 0 tasks (fun _ => none) with
  | .error e => .error e
  | .ok acc => .ok ((tasks.map (fun tk => tk.id)).map acc)

/-- Generator environment for the concrete scenarios: every admitted task
gets an already-exhausted script. -/
def env0 : Nat → Gen := fun _ => { acts := [], retVal := none }

/-- A loop whose running list holds one pending task. -/
def c1st : LoopSt :=
  { store := [{ id := 0, gen := { acts := [Act.pause false], retVal := none } }],
    running := [0], to_add := [], to_delete := [], nextId := 1, log := [] }

/-- A loop with one running task whose coroutine raises ValueError on its
first advance and which has one registered done callback. -/
def c2st : LoopSt :=
  { store := [{ id := 0, gen := { acts := [Act.raiseE PyErr.valueError], retVal := none },
                callbacks := [7] }],
    running := [0], to_add := [], to_delete := [], nextId := 1, log := [] }

/-- A coroutine that yields three times; its first two suspension points
swallow GenCancelledError. -/
def c3env : Nat → Gen :=
  fun _ => { acts := [Act.pause true, Act.pause true, Act.pause false], retVal := none }

/-- The c3 scenario after create_task. -/
def c3st1 : LoopSt := (createTaskM c3env loop0 0).1

/-- The c3 scenario after one tick: the task is suspended at a yield that
catches cancellation. -/
def c3st2 : LoopSt := stepOk (tickM c3env c3st1)

/-- The c3 scenario after the user calls cacnel: the task status is
cancelled but its generator swallowed the error and is still alive. -/
def c3st3 : LoopSt :=
  match cacnelM c3env c3st2 0 with
  | .ok s => s
  | .error p => p.2

/-- A loop with one running task that admits a new task during its advance. -/
def c4st : LoopSt :=
  { store := [{ id := 0, gen := { acts := [Act.admitTask 0 false], retVal := none } }],
    running := [0], to_add := [], to_delete := [], nextId := 1, log := [] }

/-- A loop with three running tasks; the middle one raises ValueError. -/
def c8st : LoopSt :=
  { store := [{ id := 0, gen := { acts := [Act.pause false], retVal := none } },
              { id := 1, gen := { acts := [Act.raiseE PyErr.valueError], retVal := none } },
              { id := 2, gen := { acts := [Act.pause false], retVal := none } }],
    running := [0, 1, 2], to_add := [], to_delete := [], nextId := 3, log := [] }

/-- A loop with one running task and one staged task; the staged task admits
a further task when it eventually runs. -/
def c8wst : LoopSt :=
  { store := [{ id := 0, gen := { acts := [Act.pause false], retVal := none } },
              { id := 1, gen := { acts := [Act.admitTask 0 false], retVal := none } }],
    running := [0], to_add := [1], to_delete := [], nextId := 2, log := [] }

/-- Two gathered tasks: the first completes on the very first tick, the
second far beyond the deadline. -/
def c6tasks : List GTask :=
  [{ id := 10, doneAt := 0, result := some 1 }, { id := 11, doneAt := 100, result := some 2 }]

/-- Two gathered tasks that complete in the reverse of argument order. -/
def c7tasks : List GTask :=
  [{ id := 1, doneAt := 1, result := some 5 }, { id := 2, doneAt := 0, result := some 7 }]

/-- Event.set always leaves the latch set. -/
theorem eventSet_value (e : Event) : (eventSet e).value = true := by
  by_cases h : e.value
  · simp [eventSet, h]
  · simp [eventSet, h]

/-- Accounting invariant of a queue trace: the counter moves exactly with
the successful puts and task_done calls, stays non-negative, and the
finished latch tracks it reaching zero. -/
theorem runQ_spec (ops : List QOp) : ∀ q : Queue,
    0 ≤ q.unfinished_tasks →
    (q.finished.value = true ↔ q.unfinished_tasks = 0) →
    (runQ q ops).1.unfinished_tasks
        = q.unfinished_tasks + ((runQ q ops).2.1 : Int) - ((runQ q ops).2.2 : Int) ∧
    0 ≤ (runQ q ops).1.unfinished_tasks ∧
    ((runQ q ops).1.finished.value = true ↔ (runQ q ops).1.unfinished_tasks = 0) := by
  induction ops with
  | nil =>
    intro q h0 h1
    exact ⟨by simp [runQ], by simpa [runQ] using h0, by simpa [runQ] using h1⟩
  | cons op ops ih =>
    intro q h0 h1
    have step : 0 ≤ (applyQOp q op).1.unfinished_tasks ∧
        ((applyQOp q op).1.finished.value = true
            ↔ (applyQOp q op).1.unfinished_tasks = 0) ∧
        (applyQOp q op).1.unfinished_tasks
          = q.unfinished_tasks + ((applyQOp q op).2.1 : Int) - ((applyQOp q op).2.2 : Int) := by
      cases op with
      | opPut v =>
        by_cases hf : queueFullB q
        · simp [applyQOp, putNowait, hf]
          exact ⟨h0, h1⟩
        · simp [applyQOp, putNowait, hf, eventClear]
          omega
      | opGet =>
        cases hq : q.queue with
        | nil =>
          simp [applyQOp, getNowait, hq]
          exact ⟨h0, h1⟩
        | cons x xs =>
          simp [applyQOp, getNowait, hq]
          exact ⟨h0, h1⟩
      | opTaskDone =>
        by_cases hz : q.unfinished_tasks ≤ 0
        · simp [applyQOp, taskDone, hz]
          exact ⟨h0, h1⟩
        · by_cases h1' : q.unfinished_tasks - 1 = 0
          · simp [applyQOp, taskDone, hz, h1', eventSet_value]
          · simp [applyQOp, taskDone, hz, h1']
            refine ⟨by omega, ?_⟩
            cases hv : q.finished.value with
            | false => rfl
            | true => exact absurd (h1.mp hv) (by omega)
    have hmain := ih (applyQOp q op).1 step.1 step.2.1
    have hrq : runQ q (op :: ops)
        = ((runQ (applyQOp q op).1 ops).1,
           (applyQOp q op).2.1 + (runQ (applyQOp q op).1 ops).2.1,
           (applyQOp q op).2.2 + (runQ (applyQOp q op).1 ops).2.2) := rfl
    rw [hrq]
    refine ⟨?_, hmain.2.1, hmain.2.2⟩
    have ha := hmain.1
    have hb := step.2.2
    push_cast
    push_cast at ha hb
    omega

/-- C5: for every Queue and every trace of put_nowait/put, get and
task_done operations (raising operations leave the state unchanged),
unfinished_tasks equals the number of successful puts minus the number of
successful task_done calls, never drops below zero, and the finished event
is set exactly when it is zero. -/
theorem c5_queue_accounting (m : Int) (ops : List QOp) :
    (runQ (queueInit m) ops).1.unfinished_tasks
        = ((runQ (queueInit m) ops).2.1 : Int) - ((runQ (queueInit m) ops).2.2 : Int) ∧
    0 ≤ (runQ (queueInit m) ops).1.unfinished_tasks ∧
    ((runQ (queueInit m) ops).1.finished.value = true
        ↔ (runQ (queueInit m) ops).1.unfinished_tasks = 0) := by
  have h := runQ_spec ops (queueInit m) (by simp [queueInit]) (by simp [queueInit, eventSet_value])
  simp only [queueInit] at h
  simpa using h

/-- Removing a task by id yields a sublist. -/
theorem removeById_sublist (tid : Nat) : ∀ l : List GTask, (removeById tid l).Sublist l := by
  intro l
  induction l with
  | nil => simp [removeById]
  | cons x xs ih =>
    by_cases hx : x.id = tid
    · simp only [removeById, if_pos hx]
      exact List.Sublist.cons x (List.Sublist.refl xs)
    · simp only [removeById, if_neg hx]
      exact List.Sublist.cons₂ x ih

/-- A task with a different id survives removal. -/
theorem mem_removeById_of_ne {tk : GTask} {tid : Nat} (hne : tk.id ≠ tid) :
    ∀ l : List GTask, tk ∈ l → tk ∈ removeById tid l := by
  intro l
  induction l with
  | nil => intro h; simp at h
  | cons x xs ih =>
    intro hm
    by_cases hx : x.id = tid
    · simp only [removeById, if_pos hx]
      rcases List.mem_cons.mp hm with rfl | h
      · exact absurd hx hne
      · exact h
    · simp only [removeById, if_neg hx]
      rcases List.mem_cons.mp hm with rfl | h
      · exact List.mem_cons_self _ _
      · exact List.mem_cons_of_mem _ (ih h)

/-- Under distinct ids, after removing the task with a given id no task
with that id remains. -/
theorem removeById_id_ne : ∀ l : List GTask, (l.map (fun x => x.id)).Nodup →
    ∀ tid : Nat, (∃ x ∈ l, x.id = tid) →
    ∀ tk ∈ removeById tid l, tk.id ≠ tid := by
  intro l
  induction l with
  | nil =>
    intro _ tid hex
    rcases hex with ⟨x, hx, _⟩
    simp at hx
  | cons y ys ih =>
    intro hnd tid hex tk hm
    have hnd2 : (∀ x ∈ ys, ¬x.id = y.id) ∧ (ys.map (fun x => x.id)).Nodup := by
      simpa using hnd
    by_cases hy : y.id = tid
    · simp only [removeById, if_pos hy] at hm
      intro htk
      exact hnd2.1 tk hm (by rw [htk, hy])
    · simp only [removeById, if_neg hy] at hm
      rcases List.mem_cons.mp hm with rfl | h
      · exact hy
      · have hex2 : ∃ x ∈ ys, x.id = tid := by
          rcases hex with ⟨x, hx, hxid⟩
          rcases List.mem_cons.mp hx with rfl | hxs
          · exact absurd hxid hy
          · exact ⟨x, hxs, hxid⟩
        exact ih hnd2.2 tid hex2 tk h

/-- Soundness of one for-loop pass of gather, for any step bound: the
remaining tasks form a sublist whose dict entries are untouched, every task
either remains or is recorded with its own result, and the dict changes
only at ids of listed tasks. -/
theorem sweepGo_spec (t : Nat) : ∀ (steps : Nat) (l : List GTask) (i : Nat) (acc : GDict),
    (l.map (fun x => x.id)).Nodup →
    (∀ tk ∈ l, acc tk.id = none) →
    (sweepGo t steps l i acc).1.Sublist l ∧
    (∀ tk ∈ (sweepGo t steps l i acc).1, (sweepGo t steps l i acc).2 tk.id = none) ∧
    (∀ tk ∈ l, tk ∈ (sweepGo t steps l i acc).1
        ∨ (sweepGo t steps l i acc).2 tk.id = some tk.result) ∧
    (∀ n, (sweepGo t steps l i acc).2 n ≠ acc n → ∃ tk ∈ l, tk.id = n) := by
  intro steps
  induction steps with
  | zero =>
    intro l i acc hnd hun
    exact ⟨List.Sublist.refl l, hun, fun tk h => Or.inl h, fun n hne => absurd rfl hne⟩
  | succ steps ih =>
    intro l i acc hnd hun
    by_cases h : i < l.length
    · by_cases hd : gTaskDone (l.get ⟨i, h⟩) t
      · have hxmem : l.get ⟨i, h⟩ ∈ l := List.get_mem l i h
        have hsub0 := removeById_sublist (l.get ⟨i, h⟩).id l
        have hnd2 : ((removeById (l.get ⟨i, h⟩).id l).map (fun x => x.id)).Nodup :=
          List.Nodup.sublist (hsub0.map _) hnd
        have hner := removeById_id_ne l hnd (l.get ⟨i, h⟩).id ⟨_, hxmem, rfl⟩
        have hun2 : ∀ tk ∈ removeById (l.get ⟨i, h⟩).id l,
            dUpd acc (l.get ⟨i, h⟩).id (l.get ⟨i, h⟩).result tk.id = none := by
          intro tk hm
          have h1 : tk ∈ l := hsub0.subset hm
          simp only [dUpd, if_neg (hner tk hm)]
          exact hun tk h1
        obtain ⟨s1, s2, s3, s4⟩ := ih (removeById (l.get ⟨i, h⟩).id l) (i + 1)
          (dUpd acc (l.get ⟨i, h⟩).id (l.get ⟨i, h⟩).result) hnd2 hun2
        have heq : sweepGo t (steps + 1) l i acc
            = sweepGo t steps (removeById (l.get ⟨i, h⟩).id l) (i + 1)
                (dUpd acc (l.get ⟨i, h⟩).id (l.get ⟨i, h⟩).result) := by
          simp only [sweepGo]
          rw [dif_pos h, if_pos hd]
        rw [heq]
        have hxrec : (sweepGo t steps (removeById (l.get ⟨i, h⟩).id l) (i + 1)
              (dUpd acc (l.get ⟨i, h⟩).id (l.get ⟨i, h⟩).result)).2 (l.get ⟨i, h⟩).id
            = some (l.get ⟨i, h⟩).result := by
          by_cases hch : (sweepGo t steps (removeById (l.get ⟨i, h⟩).id l) (i + 1)
                (dUpd acc (l.get ⟨i, h⟩).id (l.get ⟨i, h⟩).result)).2 (l.get ⟨i, h⟩).id
              = dUpd acc (l.get ⟨i, h⟩).id (l.get ⟨i, h⟩).result (l.get ⟨i, h⟩).id
          · rw [hch]
            simp [dUpd]
          · obtain ⟨tk, hm, hid⟩ := s4 _ hch
            exact absurd hid (hner tk hm)
        refine ⟨s1.trans hsub0, s2, ?_, ?_⟩
        · intro tk hmem
          by_cases hid : tk.id = (l.get ⟨i, h⟩).id
          · have htx : tk = l.get ⟨i, h⟩ :=
              List.inj_on_of_nodup_map hnd hmem hxmem hid
            subst htx
            exact Or.inr hxrec
          · exact s3 tk (mem_removeById_of_ne hid l hmem)
        · intro n hne
          by_cases hch : (sweepGo t steps (removeById (l.get ⟨i, h⟩).id l) (i + 1)
                (dUpd acc (l.get ⟨i, h⟩).id (l.get ⟨i, h⟩).result)).2 n
              = dUpd acc (l.get ⟨i, h⟩).id (l.get ⟨i, h⟩).result n
          · rw [hch] at hne
            by_cases hn : n = (l.get ⟨i, h⟩).id
            · exact ⟨l.get ⟨i, h⟩, hxmem, hn.symm⟩
            · have hsame : dUpd acc (l.get ⟨i, h⟩).id (l.get ⟨i, h⟩).result n = acc n := by
                simp only [dUpd, if_neg hn]
              exact absurd hsame hne
          · obtain ⟨tk, hm, hid⟩ := s4 n hch
            exact ⟨tk, hsub0.subset hm, hid⟩
      · have heq : sweepGo t (steps + 1) l i acc = sweepGo t steps l (i + 1) acc := by
          simp only [sweepGo]
          rw [dif_pos h, if_neg hd]
        rw [heq]
        exact ih l (i + 1) acc hnd hun
    · have heq : sweepGo t (steps + 1) l i acc = (l, acc) := by
        simp only [sweepGo]
        rw [dif_neg h]
      rw [heq]
      exact ⟨List.Sublist.refl l, hun, fun tk hm => Or.inl hm, fun n hne => absurd rfl hne⟩

/-- When the gather loop returns normally, every admitted task has been
recorded in the dict with its own result. -/
theorem gatherLoop_spec (orig : List GTask) (timeout : Option Nat) :
    ∀ (fuel t : Nat) (tasks : List GTask) (acc : GDict),
      (∀ tk ∈ tasks, tk ∈ orig) →
      (∀ tk ∈ tasks, acc tk.id = none) →
      (tasks.map (fun x => x.id)).Nodup →
      (∀ tk ∈ orig, tk ∈ tasks ∨ acc tk.id = some tk.result) →
      ∀ accF, gatherLoop (orig.map (fun x => x.id)) timeout fuel t tasks acc = .ok accF →
        ∀ tk ∈ orig, accF tk.id = some tk.result := by
  intro fuel
  induction fuel with
  | zero =>
    intro t tasks acc _ _ _ _ accF hok
    simp [gatherLoop] at hok
  | succ fuel ih =>
    intro t tasks acc hss hun hnd2 hcov accF hok
    cases tasks with
    | nil =>
      simp only [gatherLoop, Except.ok.injEq] at hok
      intro tk htk
      rcases hcov tk htk with hin | hrec
      · simp at hin
      · rw [← hok]
        exact hrec
    | cons a rest =>
      simp only [gatherLoop, sweepPass] at hok
      cases ht : timeoutHit timeout t with
      | true =>
        rw [ht] at hok
        simp at hok
      | false =>
        rw [ht] at hok
        simp only [Bool.false_eq_true, if_false] at hok
        obtain ⟨s1, s2, s3, s4⟩ :=
          sweepGo_spec t (a :: rest).length (a :: rest) 0 acc hnd2 hun
        refine ih (t + 1) _ _ ?_ s2 ?_ ?_ accF hok
        · intro tk hm
          exact hss tk (s1.subset hm)
        · exact List.Nodup.sublist (s1.map _) hnd2
        · intro tk htk
          rcases hcov tk htk with hin | hrec
          · exact s3 tk hin
          · right
            by_cases hch : (sweepGo t (a :: rest).length (a :: rest) 0 acc).2 tk.id
                = acc tk.id
            · rw [hch]
              exact hrec
            · obtain ⟨tk2, hm2, hid2⟩ := s4 _ hch
              have hn2 : acc tk2.id = none := hun tk2 hm2
              rw [hid2, hrec] at hn2
              exact absurd hn2 (by simp)

/-- The id list inside a gather timeout error is always ordered_ids, the
ids of all admitted tasks. -/
theorem gatherLoop_timeout_ids (origIds : List Nat) (timeout : Option Nat) :
    ∀ (fuel t : Nat) (tasks : List GTask) (acc : GDict) (ids : List Nat),
      gatherLoop origIds timeout fuel t tasks acc = .error (.timeoutOn ids) → ids = origIds := by
  intro fuel
  induction fuel with
  | zero =>
    intro t tasks acc ids h
    simp [gatherLoop] at h
  | succ fuel ih =>
    intro t tasks acc ids h
    cases tasks with
    | nil => simp [gatherLoop] at h
    | cons a rest =>
      simp only [gatherLoop, sweepPass] at h
      cases ht : timeoutHit timeout t with
      | true =>
        rw [ht] at h
        simp at h
        exact h.symm
      | false =>
        rw [ht] at h
        simp only [Bool.false_eq_true, if_false] at h
        exact ih _ _ _ _ h

/-- C7: whenever gather completes without error, the result tuple has one
entry per argument and its i-th entry is the recorded result of the i-th
argument's task, independent of the order in which the tasks completed
across ticks (distinct uuid4 ids are assumed). -/
theorem c7_gather_order (tasks : List GTask) (timeout : Option Nat) (fuel : Nat)
    (out : List (Option (Option Int)))
    (hnd : (tasks.map (fun x => x.id)).Nodup)
    (hok : gatherRun tasks timeout fuel = .ok out) :
    out = tasks.map (fun tk => some tk.result) ∧ out.length = tasks.length := by
  unfold gatherRun at hok
  cases hg : gatherLoop (tasks.map (fun tk => tk.id)) timeout fuel 0 tasks (fun _ => none) with
  | error e =>
    rw [hg] at hok
    simp at hok
  | ok acc =>
    rw [hg] at hok
    simp only [Except.ok.injEq] at hok
    have hall := gatherLoop_spec tasks timeout fuel 0 tasks (fun _ => none)
      (fun tk h => h) (fun tk _ => rfl) hnd (fun tk h => Or.inl h) acc hg
    have hmt : (tasks.map (fun tk => tk.id)).map acc = tasks.map (fun tk => some tk.result) := by
      rw [List.map_map]
      exact List.map_congr_left (fun tk htk => hall tk htk)
    constructor
    · rw [← hok]
      exact hmt
    · rw [← hok]
      simp

/-- Witness for C7 at a concrete input whose tasks complete in the reverse
of argument order. -/
theorem c7_gather_order_witness :
    gatherRun c7tasks none 10 = .ok (c7tasks.map (fun tk => some tk.result)) := by
  have hok : gatherRun c7tasks none 10 = .ok [some (some 5), some (some 7)] := by decide
  have h := c7_gather_order c7tasks none 10 [some (some 5), some (some 7)] (by decide) hok
  rw [hok, h.1]

/-- C6 counterexample: gather of a task that completed on the very first
tick (id 10) and a still-pending task (id 11), with deadline 2, raises a
timeout error naming BOTH ids, although the claim says only the ids of
still-pending tasks (here just 11) are named. -/
theorem c6_counterexample :
    gatherRun c6tasks (some 2) 10 = .error (.timeoutOn [10, 11]) ∧
    gTaskDone { id := 10, doneAt := 0, result := some 1 } 0 = true := by
  constructor
  · decide
  · decide

/-- C6 amended: when gather fails with a timeout error, the error names the
ids of all tasks passed to gather, in argument order, including the ids of
tasks that already completed. -/
theorem c6_timeout_names_all_ids (tasks : List GTask) (timeout : Option Nat) (fuel : Nat)
    (ids : List Nat)
    (herr : gatherRun tasks timeout fuel = .error (.timeoutOn ids)) :
    ids = tasks.map (fun tk => tk.id) := by
  unfold gatherRun at herr
  cases hg : gatherLoop (tasks.map (fun tk => tk.id)) timeout fuel 0 tasks (fun _ => none) with
  | error e =>
    rw [hg] at herr
    simp only [Except.error.injEq] at herr
    subst herr
    exact gatherLoop_timeout_ids _ _ fuel 0 tasks _ ids hg
  | ok acc =>
    rw [hg] at herr
    simp at herr

/-- Witness for the amended C6 at the concrete timed-out input. -/
theorem c6_timeout_names_all_ids_witness :
    ([10, 11] : List Nat) = c6tasks.map (fun tk => tk.id) :=
  c6_timeout_names_all_ids c6tasks (some 2) 10 [10, 11] (by decide)

/-- Log projections distribute over append. -/
theorem advancedOf_append (a b : List Ev) :
    advancedOf (a ++ b) = advancedOf a ++ advancedOf b := by
  simp [advancedOf]

/-- Log projections distribute over append. -/
theorem admittedOf_append (a b : List Ev) :
    admittedOf (a ++ b) = admittedOf a ++ admittedOf b := by
  simp [admittedOf]

/-- Log projections distribute over append. -/
theorem cbFiredOf_append (a b : List Ev) :
    cbFiredOf (a ++ b) = cbFiredOf a ++ cbFiredOf b := by
  simp [cbFiredOf]

/-- A callback burst contains no advance events. -/
theorem advancedOf_cbs (tid : Nat) (cbs : List Nat) :
    advancedOf (cbs.map (fun c => Ev.cbFired tid c)) = [] := by
  induction cbs with
  | nil => rfl
  | cons c cs ih => simp [advancedOf, ih]

/-- A callback burst contains no admission events. -/
theorem admittedOf_cbs (tid : Nat) (cbs : List Nat) :
    admittedOf (cbs.map (fun c => Ev.cbFired tid c)) = [] := by
  induction cbs with
  | nil => rfl
  | cons c cs ih => simp [admittedOf, ih]

/-- Log projection values on a cons cell. -/
theorem advancedOf_cons_adv (n : Nat) (l : List Ev) :
    advancedOf (Ev.advancedT n :: l) = n :: advancedOf l := rfl

/-- Log projection values on a cons cell. -/
theorem admittedOf_cons_adv (n : Nat) (l : List Ev) :
    admittedOf (Ev.advancedT n :: l) = admittedOf l := rfl

/-- Log projection values on a cons cell. -/
theorem cbFiredOf_cons_adv (n : Nat) (l : List Ev) :
    cbFiredOf (Ev.advancedT n :: l) = cbFiredOf l := rfl

/-- Log projection values on singletons. -/
theorem advancedOf_adv (n : Nat) : advancedOf [Ev.advancedT n] = [n] := rfl

/-- Log projection values on singletons. -/
theorem admittedOf_adv (n : Nat) : admittedOf [Ev.advancedT n] = [] := rfl

/-- Log projection values on singletons. -/
theorem cbFiredOf_adv (n : Nat) : cbFiredOf [Ev.advancedT n] = [] := rfl

/-- Log projection values on singletons. -/
theorem advancedOf_admitted (n : Nat) : advancedOf [Ev.admittedT n] = [] := rfl

/-- Log projection values on singletons. -/
theorem admittedOf_admitted (n : Nat) : admittedOf [Ev.admittedT n] = [n] := rfl

/-- Log projection values on singletons. -/
theorem cbFiredOf_admitted (n : Nat) : cbFiredOf [Ev.admittedT n] = [] := rfl

/-- Advancing one generator does not touch running or to_delete, never
lowers the id counter, fires no callback, logs no advance of its own, and
extends to_add exactly with the (fresh) tasks it admits. -/
theorem genNext_frame (env : Nat → Gen) (st : LoopSt) (tid : Nat) :
    (genNext env st tid).1.running = st.running ∧
    (genNext env st tid).1.to_delete = st.to_delete ∧
    st.nextId ≤ (genNext env st tid).1.nextId ∧
    ∃ δ, (genNext env st tid).1.log = st.log ++ δ ∧
      advancedOf δ = [] ∧ cbFiredOf δ = [] ∧
      (genNext env st tid).1.to_add = st.to_add ++ admittedOf δ ∧
      ∀ j ∈ admittedOf δ, st.nextId ≤ j := by
  unfold genNext
  cases hg : getTask st tid with
  | none =>
    exact ⟨rfl, rfl, le_refl _, [], by simp, rfl, rfl, by simp [admittedOf],
      by intro j hj; simp [admittedOf] at hj⟩
  | some t =>
    dsimp only
    by_cases hc : t.gen.closed
    · rw [if_pos hc]
      exact ⟨rfl, rfl, le_refl _, [], by simp, rfl, rfl, by simp [admittedOf],
        by intro j hj; simp [admittedOf] at hj⟩
    · rw [if_neg hc]
      cases ha : t.gen.acts with
      | nil =>
        exact ⟨rfl, rfl, le_refl _, [], by simp [updTask], rfl, rfl, by simp [admittedOf, updTask],
          by intro j hj; simp [admittedOf] at hj⟩
      | cons a acts2 =>
        cases a with
        | pause c =>
          exact ⟨rfl, rfl, le_refl _, [], by simp [updTask], rfl, rfl, by simp [admittedOf, updTask],
            by intro j hj; simp [admittedOf] at hj⟩
        | admitTask k c =>
          refine ⟨rfl, rfl, Nat.le_succ _, [Ev.admittedT st.nextId], rfl, rfl, rfl, rfl, ?_⟩
          intro j hj
          rw [admittedOf_admitted, List.mem_singleton] at hj
          subst hj
          exact le_refl _
        | raiseE e =>
          exact ⟨rfl, rfl, le_refl _, [], by simp [updTask], rfl, rfl, by simp [admittedOf, updTask],
            by intro j hj; simp [admittedOf] at hj⟩

/-- The sweep over a list of tasks, when it returns normally, leaves
running untouched, advances each listed task in order (and nothing else),
fires no callbacks, and extends to_add with freshly numbered admissions. -/
theorem sweepTasks_spec (env : Nat → Gen) : ∀ (l : List Nat) (st stF : LoopSt),
    sweepTasks env st l = .ok stF →
    stF.running = st.running ∧ st.nextId ≤ stF.nextId ∧
    ∃ δ, stF.log = st.log ++ δ ∧ advancedOf δ = l ∧ cbFiredOf δ = [] ∧
      stF.to_add = st.to_add ++ admittedOf δ ∧ ∀ j ∈ admittedOf δ, st.nextId ≤ j := by
  intro l
  induction l with
  | nil =>
    intro st stF h
    simp only [sweepTasks, Except.ok.injEq] at h
    subst h
    exact ⟨rfl, le_refl _, [], by simp, rfl, rfl, by simp [admittedOf],
      by intro j hj; simp [admittedOf] at hj⟩
  | cons tid rest ih =>
    intro st stF h
    simp only [sweepTasks] at h
    rcases hgn : genNext env { st with log := st.log ++ [Ev.advancedT tid] } tid with ⟨st1, res⟩
    rw [hgn] at h
    have hfr := genNext_frame env { st with log := st.log ++ [Ev.advancedT tid] } tid
    rw [hgn] at hfr
    obtain ⟨hrun1, hdel1, hnid1, δ1, hlog1, hadv1, hcb1, hta1, hjb1⟩ := hfr
    have hrun1b : st1.running = st.running := hrun1
    have hnid1b : st.nextId ≤ st1.nextId := hnid1
    have hlog1b : st1.log = (st.log ++ [Ev.advancedT tid]) ++ δ1 := hlog1
    have hta1b : st1.to_add = st.to_add ++ admittedOf δ1 := hta1
    have hjb1b : ∀ j ∈ admittedOf δ1, st.nextId ≤ j := hjb1
    cases res with
    | yielded =>
      obtain ⟨hrun2, hnid2, δ2, hlog2, hadv2, hcb2, hta2, hjb2⟩ := ih st1 stF h
      refine ⟨hrun2.trans hrun1b, le_trans hnid1b hnid2,
        Ev.advancedT tid :: (δ1 ++ δ2), ?_, ?_, ?_, ?_, ?_⟩
      · rw [hlog2, hlog1b]
        simp
      · rw [advancedOf_cons_adv, advancedOf_append, hadv1, hadv2]
        rfl
      · rw [cbFiredOf_cons_adv, cbFiredOf_append, hcb1, hcb2]
        rfl
      · rw [admittedOf_cons_adv, admittedOf_append, hta2, hta1b]
        simp
      · intro j hj
        rw [admittedOf_cons_adv, admittedOf_append, List.mem_append] at hj
        rcases hj with hj1 | hj2
        · exact hjb1b j hj1
        · exact le_trans hnid1b (hjb2 j hj2)
    | raised e =>
      cases e with
      | stopIteration v =>
        obtain ⟨hrun2, hnid2, δ2, hlog2, hadv2, hcb2, hta2, hjb2⟩ := ih _ stF h
        have hrun2b : stF.running = st1.running := hrun2
        have hnid2b : st1.nextId ≤ stF.nextId := hnid2
        have hlog2b : stF.log = st1.log ++ δ2 := hlog2
        have hta2b : stF.to_add = st1.to_add ++ admittedOf δ2 := hta2
        have hjb2b : ∀ j ∈ admittedOf δ2, st1.nextId ≤ j := hjb2
        refine ⟨hrun2b.trans hrun1b, le_trans hnid1b hnid2b,
          Ev.advancedT tid :: (δ1 ++ δ2), ?_, ?_, ?_, ?_, ?_⟩
        · rw [hlog2b, hlog1b]
          simp
        · rw [advancedOf_cons_adv, advancedOf_append, hadv1, hadv2]
          rfl
        · rw [cbFiredOf_cons_adv, cbFiredOf_append, hcb1, hcb2]
          rfl
        · rw [admittedOf_cons_adv, admittedOf_append, hta2b, hta1b]
          simp
        · intro j hj
          rw [admittedOf_cons_adv, admittedOf_append, List.mem_append] at hj
          rcases hj with hj1 | hj2
          · exact hjb1b j hj1
          · exact le_trans hnid1b (hjb2b j hj2)
      | genCancelled => exact Except.noConfusion h
      | attributeError => exact Except.noConfusion h
      | valueError => exact Except.noConfusion h
      | runtimeError => exact Except.noConfusion h

/-- The reap phase only removes tasks from running and fires callbacks: it
leaves to_add, to_delete and the id counter alone, and its log extension
contains neither advance nor admission events. -/
theorem reapTasks_frame : ∀ (l : List Nat) (st : LoopSt),
    (reapTasks st l).to_add = st.to_add ∧
    (reapTasks st l).to_delete = st.to_delete ∧
    (reapTasks st l).nextId = st.nextId ∧
    ∃ δ, (reapTasks st l).log = st.log ++ δ ∧ advancedOf δ = [] ∧ admittedOf δ = [] := by
  intro l
  induction l with
  | nil =>
    intro st
    exact ⟨rfl, rfl, rfl, [], by simp [reapTasks], rfl, rfl⟩
  | cons tid rest ih =>
    intro st
    obtain ⟨h1, h2, h3, δ2, hlog2, hadv2, hadm2⟩ := ih
      { st with
        running := removeFirstNat tid st.running,
        log := st.log ++ ((match getTask st tid with
          | some t => t.callbacks
          | none => []).map (fun c => Ev.cbFired tid c)) }
    refine ⟨h1, h2, h3,
      ((match getTask st tid with
        | some t => t.callbacks
        | none => []).map (fun c => Ev.cbFired tid c)) ++ δ2, ?_, ?_, ?_⟩
    · exact hlog2.trans (List.append_assoc _ _ _)
    · rw [advancedOf_append, advancedOf_cbs, hadv2]
      rfl
    · rw [admittedOf_append, admittedOf_cbs, hadm2]
      rfl

/-- Unfolding of Loop.tick in terms of its three phases. -/
theorem tickM_eq (env : Nat → Gen) (st : LoopSt) :
    tickM env st =
      match sweepTasks env { st with running := st.running ++ st.to_add, to_add := [] }
          (st.running ++ st.to_add) with
      | .error p => .error p
      | .ok st2 => .ok ({ reapTasks st2 st2.to_delete with to_delete := [] },
                        (reapTasks st2 st2.to_delete).to_delete) := rfl

/-- C4 counterexample: a task that calls create_task during the sweep
leaves the newly admitted task staged on to_add after tick() returns, so
to_add is not empty, contradicting the claim. -/
theorem c4_counterexample :
    (okInfo (tickM env0 c4st)).map (fun p => p.1.to_add) = some [1] ∧
    ([1] : List Nat) ≠ [] := by
  constructor
  · decide
  · decide

/-- C4 amended: after tick() returns normally, to_delete is empty, and
to_add holds exactly the tasks admitted during that tick, in admission
order (so it is empty only when no task was admitted during the tick);
tasks admitted mid-tick stay staged until the next tick drains them. -/
theorem c4_staging_after_tick (env : Nat → Gen) (st stF : LoopSt) (dn : List Nat)
    (hok : tickM env st = .ok (stF, dn)) :
    stF.to_delete = [] ∧ stF.to_add = admittedOf (stF.log.drop st.log.length) := by
  rw [tickM_eq] at hok
  cases hs : sweepTasks env { st with running := st.running ++ st.to_add, to_add := [] }
      (st.running ++ st.to_add) with
  | error p =>
    rw [hs] at hok
    exact Except.noConfusion hok
  | ok st2 =>
    rw [hs] at hok
    simp only [Except.ok.injEq, Prod.mk.injEq] at hok
    obtain ⟨hst, hdn⟩ := hok
    obtain ⟨hrun, hnid, δs, hlog, hadv, hcb, hta, hjb⟩ :=
      sweepTasks_spec env (st.running ++ st.to_add) _ st2 hs
    have hlogb : st2.log = st.log ++ δs := hlog
    have htab : st2.to_add = [] ++ admittedOf δs := hta
    obtain ⟨r1, r2, r3, δr, rlog, radv, radm⟩ := reapTasks_frame st2.to_delete st2
    subst hst
    constructor
    · rfl
    · have h1 : ({ reapTasks st2 st2.to_delete with to_delete := [] } : LoopSt).to_add
          = st2.to_add := r1
      have h2 : ({ reapTasks st2 st2.to_delete with to_delete := [] } : LoopSt).log
          = st.log ++ (δs ++ δr) := by
        calc ({ reapTasks st2 st2.to_delete with to_delete := [] } : LoopSt).log
            = st2.log ++ δr := rlog
          _ = (st.log ++ δs) ++ δr := by rw [hlogb]
          _ = st.log ++ (δs ++ δr) := List.append_assoc _ _ _
      rw [h1, h2, List.drop_left, admittedOf_append, radm, htab]
      simp

/-- Witness for the amended C4 at a state whose only running task admits a
new task during the tick. -/
theorem c4_staging_after_tick_witness :
    (stepOk (tickM env0 c4st)).to_delete = [] ∧
    (stepOk (tickM env0 c4st)).to_add
      = admittedOf ((stepOk (tickM env0 c4st)).log.drop c4st.log.length) :=
  c4_staging_after_tick env0 c4st (stepOk (tickM env0 c4st)) [] (by decide)

/-- C8 counterexample: with three running tasks whose middle coroutine
raises ValueError, the tick aborts after advancing only the first two, so
the third task in running is not advanced at all during that tick,
contradicting the claim that every task in running is advanced exactly
once. -/
theorem c8_counterexample :
    (errInfo (tickM env0 c8st)).map
      (fun p => advancedOf (p.2.log.drop c8st.log.length)) = some [0, 1] ∧
    c8st.running ++ c8st.to_add = [0, 1, 2] := by
  constructor
  · decide
  · decide

/-- C8 amended: when tick() returns normally, the tasks advanced during the
tick are exactly those in running after the initial drain (the old running
list followed by the staged ones), each exactly once, in admission order;
tasks admitted during the tick are not among them, because their fresh ids
lie beyond every id already in the loop. -/
theorem c8_tick_advance_order (env : Nat → Gen) (st stF : LoopSt) (dn : List Nat)
    (hwf : ∀ i ∈ st.running ++ st.to_add, i < st.nextId)
    (hok : tickM env st = .ok (stF, dn)) :
    advancedOf (stF.log.drop st.log.length) = st.running ++ st.to_add ∧
    ∀ j ∈ admittedOf (stF.log.drop st.log.length), j ∉ st.running ++ st.to_add := by
  rw [tickM_eq] at hok
  cases hs : sweepTasks env { st with running := st.running ++ st.to_add, to_add := [] }
      (st.running ++ st.to_add) with
  | error p =>
    rw [hs] at hok
    exact Except.noConfusion hok
  | ok st2 =>
    rw [hs] at hok
    simp only [Except.ok.injEq, Prod.mk.injEq] at hok
    obtain ⟨hst, hdn⟩ := hok
    obtain ⟨hrun, hnid, δs, hlog, hadv, hcb, hta, hjb⟩ :=
      sweepTasks_spec env (st.running ++ st.to_add) _ st2 hs
    have hlogb : st2.log = st.log ++ δs := hlog
    have hjbb : ∀ j ∈ admittedOf δs, st.nextId ≤ j := hjb
    obtain ⟨r1, r2, r3, δr, rlog, radv, radm⟩ := reapTasks_frame st2.to_delete st2
    subst hst
    have h2 : ({ reapTasks st2 st2.to_delete with to_delete := [] } : LoopSt).log
        = st.log ++ (δs ++ δr) := by
      calc ({ reapTasks st2 st2.to_delete with to_delete := [] } : LoopSt).log
          = st2.log ++ δr := rlog
        _ = (st.log ++ δs) ++ δr := by rw [hlogb]
        _ = st.log ++ (δs ++ δr) := List.append_assoc _ _ _
    rw [h2, List.drop_left]
    constructor
    · rw [advancedOf_append, hadv, radv]
      simp
    · intro j hj
      rw [admittedOf_append, radm, List.append_nil] at hj
      intro hmem
      have h3 := hwf j hmem
      have h4 := hjbb j hj
      omega

/-- Witness for the amended C8 at a state with one running and one staged
task, the latter admitting a further task when it first runs. -/
theorem c8_tick_advance_order_witness :
    advancedOf ((stepOk (tickM env0 c8wst)).log.drop c8wst.log.length)
        = c8wst.running ++ c8wst.to_add ∧
    ∀ j ∈ admittedOf ((stepOk (tickM env0 c8wst)).log.drop c8wst.log.length),
      j ∉ c8wst.running ++ c8wst.to_add :=
  c8_tick_advance_order env0 c8wst (stepOk (tickM env0 c8wst)) [] (by decide) (by decide)

/-- C1: on a Loop whose running list is non-empty, cancel_all() raises
AttributeError from its very first iteration — Task defines only the
misspelled cacnel, so task.cancel() does not exist — leaving the state
untouched: no cancellation is injected into any task and no extra tick is
run, contrary to the claim. -/
theorem c1_cancel_all_attribute_error :
    cancelAllM env0 c1st = .error (.attributeError, c1st) ∧ c1st.running = [0] := by
  constructor
  · decide
  · decide

/-- C2 counterexample: a running task whose coroutine raises ValueError.
The tick raises instead of returning, the task is left Pending — not
terminal — and its registered done callback never fires, contradicting the
claim that the task becomes terminal and its callbacks still fire. -/
theorem c2_counterexample :
    (errInfo (tickM env0 c2st)).map
      (fun p => ((getTask p.2 0).map (fun u => u.status), cbFiredOf p.2.log))
      = some (some .pending, []) ∧
    okInfo (tickM env0 c2st) = none := by
  constructor
  · decide
  · decide

/-- C2 amended: when a task's coroutine raises an error other than
StopIteration during a tick, the error propagates out of tick() — it is not
silently swallowed — but the task does not become terminal: its status
stays Pending and no done callback fires in that tick. -/
theorem c2_error_propagates (env : Nat → Gen) (tid n : Nat) (cbs : List Nat)
    (rest : List Act) (rv res0 : Option Int) (pc : Bool) (e : PyErr)
    (he : isStopIt e = false) :
    (errInfo (tickM env
      { store := [{ id := tid,
                    gen := { acts := Act.raiseE e :: rest, retVal := rv,
                             closed := false, pendingCatch := pc },
                    status := .pending, result := res0, callbacks := cbs }],
        running := [tid], to_add := [], to_delete := [], nextId := n, log := [] })).map
      (fun p => (p.1, (getTask p.2 tid).map (fun u => u.status), cbFiredOf p.2.log))
      = some (e, some .pending, []) := by
  cases e <;>
    simp_all [tickM_eq, sweepTasks, genNext, getTask, updTask, errInfo, cbFiredOf, isStopIt]

/-- Witness for the amended C2 at the concrete erroring state. -/
theorem c2_error_propagates_witness :
    (errInfo (tickM env0 c2st)).map
      (fun p => (p.1, (getTask p.2 0).map (fun u => u.status), cbFiredOf p.2.log))
      = some (.valueError, some .pending, []) :=
  c2_error_propagates env0 0 1 [7] [] none none false .valueError (by decide)

/-- C3 counterexample: the task in c3st3 has status Cancelled (its
coroutine swallowed the cancellation, so its generator is still open), yet
the next tick calls next on it — the advance event is logged and the
generator consumes another step — contradicting the claim that the Loop
never advances a Cancelled task again. -/
theorem c3_counterexample :
    (getTask c3st3 0).map (fun u => (u.status, u.gen.closed, u.gen.acts))
      = some (.cancelled, false, [Act.pause false]) ∧
    (okInfo (tickM c3env c3st3)).map
      (fun p => (p.1.log.drop c3st3.log.length, (getTask p.1 0).map (fun u => u.gen.acts)))
      = some ([Ev.advancedT 0], some []) := by
  constructor
  · decide
  · decide

/-- C3 amended: tick() advances every task in running with no status check;
a Cancelled task makes no further coroutine progress only when its
generator is already closed — the advance then raises StopIteration at
once, so the generator state is untouched, the Cancelled status is
preserved, and the task is retired from running with its callbacks
fired. -/
theorem c3_cancelled_closed_gen (env : Nat → Gen) (tid n : Nat) (acts : List Act)
    (rv res0 : Option Int) (pc : Bool) (cbs : List Nat) :
    (okInfo (tickM env
      { store := [{ id := tid,
                    gen := { acts := acts, retVal := rv, closed := true, pendingCatch := pc },
                    status := .cancelled, result := res0, callbacks := cbs }],
        running := [tid], to_add := [], to_delete := [], nextId := n, log := [] })).map
      (fun p => ((getTask p.1 tid).map (fun u => (u.status, u.gen.acts, u.gen.closed)),
                 p.1.running, p.2))
      = some (some (.cancelled, acts, true), [], [tid]) := by
  simp [tickM_eq, sweepTasks, genNext, getTask, updTask, reapTasks, removeFirstNat, okInfo]

/-- C9 counterexample: after set_result stores 1, the Future is done, yet a
second set_result call returns normally and silently overwrites the stored
result with 2 — no error is signalled, contradicting the claim. -/
theorem c9_counterexample :
    futureDone (futureSetResult (⟨none⟩ : Future) (PVal.pint 1)) = true ∧
    futureSetResult (futureSetResult (⟨none⟩ : Future) (PVal.pint 1)) (PVal.pint 2)
      = { result := some (PVal.pint 2) } := by
  constructor
  · decide
  · decide

/-- C9 amended: set_result performs no state check: called on a Future that
is already done, it silently overwrites the stored result and the Future
stays done; calling it at most once is an unchecked caller obligation. -/
theorem c9_set_result_overwrites (f : Future) (v : PVal) (_hdone : futureDone f = true) :
    futureSetResult f v = { result := some v } ∧
    futureDone (futureSetResult f v) = true :=
  ⟨rfl, rfl⟩

/-- Witness for the amended C9 on an already-set Future. -/
theorem c9_set_result_overwrites_witness :
    futureSetResult ⟨some (PVal.pint 1)⟩ (PVal.pint 2) = { result := some (PVal.pint 2) } ∧
    futureDone (futureSetResult ⟨some (PVal.pint 1)⟩ (PVal.pint 2)) = true :=
  c9_set_result_overwrites ⟨some (PVal.pint 1)⟩ (PVal.pint 2) (by decide)

/-- C10: Task.done returns true for every Cancelled task, so cancellation
counts as completion for the polling loops of run_until_complete and
gather, which exit on done(). -/
theorem c10_cancelled_done (t : Task) (h : t.status = .cancelled) : taskIsDone t = true := by
  simp [taskIsDone, h]

/-- Witness for C10 on a concrete cancelled task. -/
theorem c10_cancelled_done_witness :
    taskIsDone { id := 0, gen := { acts := [], retVal := none }, status := .cancelled } = true :=
  c10_cancelled_done { id := 0, gen := { acts := [], retVal := none }, status := .cancelled } rfl

end GenSync
